/-
Verification of the `ai_agent.py` update agent.

The script is a single linear pipeline: read configuration from the
environment, enumerate and select a generative model, read two website
files, build a prompt, call the model, and scan the response text for
`FILE:` / fence-delimited blocks, overwriting each named file with the
block's content.

We embed the program shallowly.  Python strings are represented as
`List Char` (`Line`); the Python primitives `str.split`, `str.strip` and
`str.startswith` are re-implemented faithfully below; the line scanner of
step 5 of the script becomes the `step` function on `ScanState`; the whole
`main` becomes `mainRun`, a pure function from its external inputs
(environment, filesystem, model-catalog enumeration and generation result)
to the trace of effects it performs, its outcome (normal return or
uncaught exception) and the final filesystem.
-/
import Mathlib

set_option maxHeartbeats 1000000

/-- Python strings, viewed as their character lists. -/
abbrev Line := List Char

/-! ### Python string primitives -/

/-- The result of finding the first occurrence of `sep` in `s`:
`some (before, after)` splits `s` as `before ++ sep ++ after` at the first
occurrence, `none` means no occurrence.  This is the engine of Python's
`str.split(sep)`. -/
def splitFirst (sep : Line) : Line → Option (Line × Line)
  | [] => none
  | c :: rest =>
    if sep.isPrefixOf (c :: rest) then some ([], (c :: rest).drop sep.length)
    else
      match splitFirst sep rest with
      | some (b, a) => some (c :: b, a)
      | none => none

/-- Fuelled worker for `pySplit`; the fuel only serves termination, any
fuel larger than the string length gives the true result. -/
def pySplitAux : Nat → Line → Line → List Line
  | 0, _, s => [s]
  | fuel + 1, sep, s =>
    match splitFirst sep s with
    | none => [s]
    | some (b, a) => b :: pySplitAux fuel sep a

/-- Python `s.split(sep)` for a non-empty separator `sep`. -/
def pySplit (sep s : Line) : List Line :=
  pySplitAux (s.length + 1) sep s

/-- Trailing-whitespace removal (Python `str.rstrip`). -/
def dropTrailingWs : Line → Line
  | [] => []
  | c :: cs =>
    let r := dropTrailingWs cs
    if r.isEmpty && c.isWhitespace then [] else c :: r

/-- Python `str.strip`: remove leading and trailing whitespace. -/
def pyStrip (s : Line) : Line :=
  dropTrailingWs (s.dropWhile Char.isWhitespace)

/-- `true` iff `needle` occurs as a contiguous substring of `hay`
(Python `needle in hay`). -/
def containsSub (needle hay : Line) : Bool :=
  (splitFirst needle hay).isSome

/-! ### The response applier (`ai_agent.py`, lines 110-133) -/

/-- `"FILE: "`, the marker that begins a file block. -/
def fileMarker : Line := "FILE: ".toList

/-- The triple-backtick code-fence marker. -/
def fenceMarker : Line := "```".toList

/-- The line separator used by `response_text.split('\n')` and
`"\n".join(buffer)`. -/
def newlineSep : Line := "\n".toList

/-- `line.startswith("FILE: ")`. -/
def isMarkerLine (l : Line) : Bool := fileMarker.isPrefixOf l

/-- `line.strip().startswith("```")`. -/
def isFenceLine (l : Line) : Bool := fenceMarker.isPrefixOf (pyStrip l)

/-- `line.split("FILE: ")[1].strip()`, the filename taken from a marker
line.  (Under `isMarkerLine` the split has at least two fields, so the
`getD` default is never used.) -/
def extractName (l : Line) : Line :=
  pyStrip ((pySplit fileMarker l).getD 1 [])

/-- Python truthiness of the `current_file` variable: `None` and the
empty string are falsy. -/
def truthyName : Option Line → Bool
  | none => false
  | some n => !n.isEmpty

/-- The scanner state of step 5 of the script: `current_file`,
`code_block_active`, the line `buffer`, plus the list of file writes
performed so far (in order). -/
structure ScanState where
  current_file : Option Line
  code_block_active : Bool
  buffer : List Line
  writes : List (Line × Line)
deriving Repr, DecidableEq

/-- One iteration of the `for line in lines` loop of the response
applier, translated branch for branch from the source. -/
def step (s : ScanState) (l : Line) : ScanState :=
  if isMarkerLine l then
    { s with current_file := some (extractName l), buffer := [],
             code_block_active := false }
  else if isFenceLine l && truthyName s.current_file then
    if s.code_block_active then
      { current_file := none, code_block_active := false, buffer := s.buffer,
        writes := s.writes ++
          [(s.current_file.getD [], List.intercalate newlineSep s.buffer)] }
    else
      { s with code_block_active := true }
  else if s.code_block_active then
    { s with buffer := s.buffer ++ [l] }
  else s

/-- The state at the top of the loop: `current_file = None`,
`code_block_active = False`, `buffer = []`, nothing written yet. -/
def initState : ScanState := ⟨none, false, [], []⟩

/-- Run the scanner over a list of lines. -/
def scanLines (ls : List Line) : ScanState := ls.foldl step initState

/-- The ordered list of `(filename, content)` writes the applier performs
on a response text. -/
def applyResponse (text : Line) : List (Line × Line) :=
  (scanLines (pySplit newlineSep text)).writes

/-- The filenames named by the `FILE: ` marker lines of a response, in
order. -/
def markerNames (ls : List Line) : List Line :=
  (ls.filter isMarkerLine).map extractName

/-- Apply a list of writes to a filesystem (map from path to content);
each write is a full overwrite. -/
def applyWrites (fs : Line → Option Line) (ws : List (Line × Line)) :
    Line → Option Line :=
  ws.foldl (fun acc w => fun p => if p = w.1 then some w.2 else acc p) fs

example : applyResponse ("FILE: a.txt\n```\nhello\nworld\n```".toList) =
    [("a.txt".toList, "hello\nworld".toList)] := by decide

example : applyResponse ("chat\nFILE: a.txt\n```css\nx\n```\ntrail".toList) =
    [("a.txt".toList, "x".toList)] := by decide

example : applyResponse ("FILE: a\n```\npart\nFILE: b\n```\nbody\n```".toList) =
    [("b".toList, "body".toList)] := by decide

example : applyResponse ("FILE: a\n```\nnever closed".toList) = [] := by decide

/-! ### Configuration (`ai_agent.py`, lines 7-15) -/

/-- Worker for `digitsVal`: digits with single underscores allowed
between digits, as accepted by Python's `int`. -/
def digitsValAux : Nat → Line → Option Nat
  | acc, [] => some acc
  | acc, c :: cs =>
    if c.isDigit then digitsValAux (10 * acc + (c.toNat - '0'.toNat)) cs
    else if c = '_' then
      match cs with
      | [] => none
      | d :: _ => if d.isDigit then digitsValAux acc cs else none
    else none

/-- Value of a non-empty digit sequence (first character must be a
digit). -/
def digitsVal : Line → Option Nat
  | [] => none
  | c :: cs => if c.isDigit then digitsValAux (c.toNat - '0'.toNat) cs else none

/-- Python `int(x)` for `x` an environment lookup result: `int(None)`
raises `TypeError` and a non-numeric string raises `ValueError`, both
modelled as `none`; otherwise the converted integer. -/
def pyInt : Option Line → Option Int
  | none => none
  | some s =>
    match pyStrip s with
    | '+' :: rest => (digitsVal rest).map (fun n => (n : Int))
    | '-' :: rest => (digitsVal rest).map (fun n => -(n : Int))
    | t => (digitsVal t).map (fun n => (n : Int))

def keyGemini : Line := "GEMINI_API_KEY".toList
def keyGithub : Line := "GITHUB_TOKEN".toList
def keyRepo : Line := "REPO_NAME".toList
def keyIssueNumber : Line := "ISSUE_NUMBER".toList
def keyIssueBody : Line := "ISSUE_BODY".toList

/-! ### Model selection (`ai_agent.py`, lines 19-54)

`genai.list_models()` is a remote paginated enumeration; we model it by
the list of models it yields before finishing or failing, together with
`enumErr`, an optional exception raised after those yields.  The `try`
block appends the name of every yielded model supporting
`generateContent` to `available_models`; the `except` branch only prints,
so models yielded before an exception remain in the list. -/

structure ModelInfo where
  name : Line
  supported_generation_methods : List Line
deriving Repr, DecidableEq

/-- The `available_models` list built by the enumeration loop. -/
def availableModelsOf (yielded : List ModelInfo) : List Line :=
  (yielded.filter (fun m =>
    m.supported_generation_methods.contains ("generateContent".toList))).map
    (fun m => m.name)

/-- The hard-coded ranked preference list (lines 31-40). -/
def priority_models : List Line :=
  [ "models/gemini-3-pro-preview".toList,
    "models/gemini-2.0-pro-exp".toList,
    "models/gemini-2.5-pro".toList,
    "models/gemini-2.0-flash".toList,
    "models/gemini-1.5-pro-latest".toList,
    "models/gemini-1.5-pro".toList,
    "models/gemini-1.5-flash".toList,
    "models/gemini-pro".toList ]

/-- The selection loop plus fallback (lines 42-51): first priority entry
present in `available`, else the fixed fallback `'gemini-pro'`. -/
def selectModel (available : List Line) : Line :=
  match priority_models.find? (fun p => available.contains p) with
  | some p => p
  | none => "gemini-pro".toList

/-- The model name `main` ends up with, given what the enumeration
yielded and whether it then raised: the exception is caught and only
logged, so selection always uses the names collected before it. -/
def selectedModelOf (yielded : List ModelInfo) (enumErr : Option Line) : Line :=
  selectModel (availableModelsOf yielded)

/-! ### File reading and the prompt (`ai_agent.py`, lines 56-101) -/

def fileIndexHtml : Line := "index.html".toList
def fileStyleCss : Line := "style.css".toList

/-- The placeholder used when a target file is absent (line 67). -/
def sentinelText : Line := "(File does not exist yet)".toList

/-- `file_contents[filename]`: the file's text if it exists, else the
sentinel. -/
def contentOf (fs : Line → Option Line) (name : Line) : Line :=
  (fs name).getD sentinelText

/-- Rendering of a possibly-absent environment string inside an f-string:
Python formats `None` as `"None"`. -/
def pyShowOpt : Option Line → Line
  | some s => s
  | none => "None".toList

def promptHead : Line :=
  ("\n    You are an expert web developer agent. \n    Your task is to modify the following website code based on the user's request.\n    \n    USER REQUEST:\n    ").toList

def promptMid1 : Line :=
  ("\n    \n    CURRENT FILE CONTENT:\n    \n    --- index.html ---\n    ").toList

def promptMid2 : Line := ("\n    \n    --- style.css ---\n    ").toList

def promptTail : Line :=
  ("\n    \n    INSTRUCTIONS:\n    1. Return the FULL content of the modified files. \n    2. If a file is not modified, do not return it.\n    3. Use the following format strictly:\n    \n    FILE: index.html\n    ```html\n    ... full content of index.html ...\n    ```\n    \n    FILE: style.css\n    ```css\n    ... full content of style.css ...\n    ```\n    \n    Do not add any other conversational text. Just the file blocks.\n    ").toList

/-- The f-string of lines 70-101, with the issue body and the two file
contents interpolated. -/
def promptOf (issue_body : Option Line) (idx css : Line) : Line :=
  promptHead ++ pyShowOpt issue_body ++ promptMid1 ++ idx ++ promptMid2 ++
    css ++ promptTail

/-! ### The whole of `main` as a pure function -/

/-- Observable effects of a run, in order. -/
inductive Effect where
  | envRead : Line → Effect
  | printOut : Line → Effect
  | configure : Effect
  | listModels : Effect
  | fileRead : Line → Effect
  | generate : Line → Line → Effect
  | fileWrite : Line → Line → Effect
deriving Repr, DecidableEq

/-- Uncaught exceptions a run can die with. -/
inductive RunError where
  | intConversion : RunError
  | generationFailure : Line → RunError
deriving Repr, DecidableEq

/-- The `Found supported model: ...` messages printed inside the
enumeration loop. -/
def foundPrints (yielded : List ModelInfo) : List Effect :=
  (yielded.filter (fun m =>
    m.supported_generation_methods.contains ("generateContent".toList))).map
    (fun m => Effect.printOut ("Found supported model: ".toList ++ m.name))

/-- `main`, as a function from its external inputs to the effect trace,
the outcome (normal return or uncaught exception) and the final
filesystem.  `env` is the process environment, `fs` the filesystem,
`yielded`/`enumErr` the behavior of `genai.list_models()` and `genResult`
the outcome of `model.generate_content` (its plain-text payload, or the
exception it raised). -/
def mainRun (env : Line → Option Line) (fs : Line → Option Line)
    (yielded : List ModelInfo) (enumErr : Option Line)
    (genResult : Except Line Line) :
    List Effect × Except RunError Unit × (Line → Option Line) :=
  let t0 : List Effect := [Effect.envRead keyGemini]
  if truthyName (env keyGemini) = false then
    (t0 ++ [Effect.printOut ("Error: GEMINI_API_KEY not found.".toList)],
     Except.ok (), fs)
  else
    let t1 := t0 ++ [Effect.envRead keyGithub, Effect.envRead keyRepo,
                     Effect.envRead keyIssueNumber]
    match pyInt (env keyIssueNumber) with
    | none => (t1, Except.error RunError.intConversion, fs)
    | some _ =>
      let t2 := t1 ++ [Effect.envRead keyIssueBody, Effect.configure]
      let t3 := t2 ++ [Effect.printOut ("Listing available models...".toList),
                       Effect.listModels]
        ++ foundPrints yielded
        ++ (match enumErr with
            | some e => [Effect.printOut ("Error listing models: ".toList ++ e)]
            | none => [])
      let available := availableModelsOf yielded
      let sel := selectedModelOf yielded enumErr
      let t4 := t3
        ++ (if (priority_models.find? (fun p => available.contains p)).isNone
            then [Effect.printOut
              ("Could not find a preferred model in the list. Attempting 'gemini-pro' as fallback.".toList)]
            else [])
        ++ [Effect.printOut ("Selected model: ".toList ++ sel)]
      let t5 := t4 ++ [Effect.fileRead fileIndexHtml,
                       Effect.fileRead fileStyleCss]
      let prompt := promptOf (env keyIssueBody) (contentOf fs fileIndexHtml)
        (contentOf fs fileStyleCss)
      let t6 := t5 ++ [Effect.printOut ("Sending request to Gemini...".toList),
                       Effect.generate sel prompt]
      match genResult with
      | Except.error e => (t6, Except.error (RunError.generationFailure e), fs)
      | Except.ok text =>
        let ws := applyResponse text
        let t7 := t6
          ++ [Effect.printOut ("Received response from Gemini.".toList)]
          ++ ws.flatMap (fun w =>
               [Effect.printOut ("Updating ".toList ++ w.1 ++ "...".toList),
                Effect.fileWrite w.1 w.2])
        (t7, Except.ok (), applyWrites fs ws)

/-- Paths of the file-read effects of a trace, in order. -/
def readPaths (tr : List Effect) : List Line :=
  tr.filterMap (fun e =>
    match e with
    | Effect.fileRead n => some n
    | _ => none)

/-- Paths of the file-write effects of a trace, in order. -/
def writePaths (tr : List Effect) : List Line :=
  tr.filterMap (fun e =>
    match e with
    | Effect.fileWrite n _ => some n
    | _ => none)

/-! ### Facts about the string primitives -/

theorem exists_of_isPrefixOf {p l : Line} (h : p.isPrefixOf l = true) :
    ∃ t, l = p ++ t := by
  induction p generalizing l with
  | nil => exact ⟨l, rfl⟩
  | cons c cs ih =>
    cases l with
    | nil => simp [List.isPrefixOf] at h
    | cons d ds =>
      have h' : (c == d && cs.isPrefixOf ds) = true := h
      rw [Bool.and_eq_true] at h'
      obtain ⟨t, ht⟩ := ih h'.2
      have hcd : c = d := beq_iff_eq.mp h'.1
      exact ⟨t, by subst hcd; simp [ht]⟩

theorem isPrefixOf_self_append (p t : Line) : p.isPrefixOf (p ++ t) = true := by
  induction p with
  | nil => simp [List.isPrefixOf]
  | cons c cs ih =>
    show (c == c && cs.isPrefixOf (cs ++ t)) = true
    simp [ih]

theorem splitFirst_sep_append {sep : Line} (h : sep ≠ []) (r : Line) :
    splitFirst sep (sep ++ r) = some ([], r) := by
  cases sep with
  | nil => exact absurd rfl h
  | cons c cs =>
    show splitFirst (c :: cs) (c :: (cs ++ r)) = some ([], r)
    have hp : (c :: cs).isPrefixOf (c :: (cs ++ r)) = true :=
      isPrefixOf_self_append (c :: cs) r
    simp only [splitFirst, hp, if_pos]
    have : (c :: (cs ++ r)).drop (c :: cs).length = r :=
      List.drop_left (c :: cs) r
    rw [this]

theorem splitFirst_lt {sep : Line} {s b a : Line}
    (h : splitFirst sep s = some (b, a)) (hsep : sep ≠ []) :
    a.length < s.length := by
  induction s generalizing b with
  | nil => simp [splitFirst] at h
  | cons c rest ih =>
    rw [splitFirst] at h
    by_cases hp : sep.isPrefixOf (c :: rest) = true
    · rw [if_pos hp] at h
      have ha : a = (c :: rest).drop sep.length := by
        injection h with h'
        exact (congrArg Prod.snd h').symm
      subst ha
      have h1 : 1 ≤ sep.length := by
        cases sep with
        | nil => exact absurd rfl hsep
        | cons x xs => simp
      rw [List.length_drop]
      simp only [List.length_cons]
      omega
    · rw [if_neg hp] at h
      cases hm : splitFirst sep rest with
      | none => rw [hm] at h; exact absurd h (by simp)
      | some p =>
        obtain ⟨b', a'⟩ := p
        rw [hm] at h
        have hb : c :: b' = b ∧ a' = a := by
          injection h with h'
          exact ⟨congrArg Prod.fst h', congrArg Prod.snd h'⟩
        have := ih (hb.2 ▸ hm)
        simp only [List.length_cons]
        omega

theorem pySplitAux_congr {sep : Line} (hsep : sep ≠ []) :
    ∀ f1 f2 s, s.length < f1 → s.length < f2 →
      pySplitAux f1 sep s = pySplitAux f2 sep s := by
  intro f1
  induction f1 with
  | zero => intro f2 s h1; omega
  | succ n ih =>
    intro f2 s h1 h2
    cases f2 with
    | zero => omega
    | succ m =>
      show pySplitAux (n + 1) sep s = pySplitAux (m + 1) sep s
      rw [pySplitAux, pySplitAux]
      cases hm : splitFirst sep s with
      | none => rfl
      | some p =>
        obtain ⟨b, a⟩ := p
        have hlt := splitFirst_lt hm hsep
        show b :: pySplitAux n sep a = b :: pySplitAux m sep a
        rw [ih m a (by omega) (by omega)]

theorem pySplit_cons {sep s b a : Line} (hsep : sep ≠ [])
    (h : splitFirst sep s = some (b, a)) :
    pySplit sep s = b :: pySplit sep a := by
  have hlt := splitFirst_lt h hsep
  show pySplitAux (s.length + 1) sep s = _
  rw [pySplitAux, h]
  show b :: pySplitAux s.length sep a = _
  rw [pySplitAux_congr hsep s.length (a.length + 1) a (by omega) (by omega)]
  rfl

theorem pySplit_eq_single {sep s : Line} (h : splitFirst sep s = none) :
    pySplit sep s = [s] := by
  show pySplitAux (s.length + 1) sep s = [s]
  rw [pySplitAux, h]

theorem fileMarker_ne_nil : fileMarker ≠ [] := by decide

theorem isMarkerLine_append (r : Line) : isMarkerLine (fileMarker ++ r) = true :=
  isPrefixOf_self_append fileMarker r

theorem extractName_append_none {r : Line}
    (h : splitFirst fileMarker r = none) :
    extractName (fileMarker ++ r) = pyStrip r := by
  unfold extractName
  rw [pySplit_cons fileMarker_ne_nil (splitFirst_sep_append fileMarker_ne_nil r),
      pySplit_eq_single h]
  rfl

theorem extractName_append_some {r b a : Line}
    (h : splitFirst fileMarker r = some (b, a)) :
    extractName (fileMarker ++ r) = pyStrip b := by
  unfold extractName
  rw [pySplit_cons fileMarker_ne_nil (splitFirst_sep_append fileMarker_ne_nil r),
      pySplit_cons fileMarker_ne_nil h]
  rfl

theorem dropTrailingWs_cons_not_ws {c : Char} (l : Line)
    (h : c.isWhitespace = false) :
    dropTrailingWs (c :: l) = c :: dropTrailingWs l := by
  rw [dropTrailingWs]
  simp [h]

theorem pyStrip_marker_append (t : Line) :
    pyStrip (fileMarker ++ t) =
      'F' :: dropTrailingWs ("ILE: ".toList ++ t) := by
  have h1 : fileMarker ++ t = 'F' :: ("ILE: ".toList ++ t) := rfl
  rw [h1]
  unfold pyStrip
  rw [List.dropWhile_cons]
  have hF : Char.isWhitespace 'F' = false := by decide
  rw [hF]
  simp only [Bool.false_eq_true, if_false]
  exact dropTrailingWs_cons_not_ws _ hF

theorem fenceMarker_not_isPrefixOf_F (x : Line) :
    fenceMarker.isPrefixOf ('F' :: x) = false := rfl

theorem marker_not_fence {l : Line} (h : isMarkerLine l = true) :
    isFenceLine l = false := by
  obtain ⟨t, ht⟩ := exists_of_isPrefixOf h
  subst ht
  show fenceMarker.isPrefixOf (pyStrip (fileMarker ++ t)) = false
  rw [pyStrip_marker_append]
  exact fenceMarker_not_isPrefixOf_F _

theorem fence_not_marker {l : Line} (h : isFenceLine l = true) :
    isMarkerLine l = false := by
  cases hmm : isMarkerLine l with
  | false => rfl
  | true => rw [marker_not_fence hmm] at h; simp at h

theorem containsSub_append {needle : Line} (h : needle ≠ []) (a b : Line) :
    containsSub needle (a ++ (needle ++ b)) = true := by
  induction a with
  | nil =>
    show (splitFirst needle (needle ++ b)).isSome = true
    rw [splitFirst_sep_append h b]
    rfl
  | cons c a' ih =>
    show (splitFirst needle (c :: (a' ++ (needle ++ b)))).isSome = true
    rw [splitFirst]
    by_cases hp : needle.isPrefixOf (c :: (a' ++ (needle ++ b))) = true
    · rw [if_pos hp]; rfl
    · rw [if_neg hp]
      have ih' : (splitFirst needle (a' ++ (needle ++ b))).isSome = true := ih
      cases hm : splitFirst needle (a' ++ (needle ++ b)) with
      | none => rw [hm] at ih'; exact absurd ih' (by simp)
      | some p => obtain ⟨x, y⟩ := p; rfl

/-! ### Facts about the scanner -/

theorem truthyName_some {n : Line} (h : n ≠ []) : truthyName (some n) = true := by
  cases n with
  | nil => exact absurd rfl h
  | cons c cs => rfl

theorem truthyName_true_elim {o : Option Line} (h : truthyName o = true) :
    ∃ n, o = some n ∧ n ≠ [] := by
  cases o with
  | none => simp [truthyName] at h
  | some n =>
    cases n with
    | nil => simp [truthyName] at h
    | cons c cs => exact ⟨c :: cs, rfl, by simp⟩

theorem step_marker (s : ScanState) (l : Line) (h : isMarkerLine l = true) :
    step s l = { s with current_file := some (extractName l), buffer := [],
                        code_block_active := false } := by
  simp [step, h]

theorem step_fence_open {s : ScanState} {l : Line} (h1 : isFenceLine l = true)
    (h2 : truthyName s.current_file = true) (h3 : s.code_block_active = false) :
    step s l = { s with code_block_active := true } := by
  have hm := fence_not_marker h1
  simp [step, hm, h1, h2, h3]

theorem step_fence_close {s : ScanState} {l n : Line} (h1 : isFenceLine l = true)
    (h2 : s.current_file = some n) (h3 : n ≠ [])
    (h4 : s.code_block_active = true) :
    step s l = ⟨none, false, s.buffer,
      s.writes ++ [(n, List.intercalate newlineSep s.buffer)]⟩ := by
  have hm := fence_not_marker h1
  simp [step, hm, h1, h4, h2, truthyName_some h3]

theorem step_content {s : ScanState} {l : Line} (h1 : isMarkerLine l = false)
    (h2 : isFenceLine l = false) (h3 : s.code_block_active = true) :
    step s l = { s with buffer := s.buffer ++ [l] } := by
  simp [step, h1, h2, h3]

theorem markerNames_nil : markerNames [] = [] := rfl

theorem markerNames_cons_marker {l : Line} (h : isMarkerLine l = true)
    (tl : List Line) :
    markerNames (l :: tl) = extractName l :: markerNames tl := by
  simp [markerNames, h]

theorem markerNames_cons_not {l : Line} (h : isMarkerLine l = false)
    (tl : List Line) : markerNames (l :: tl) = markerNames tl := by
  simp [markerNames, h]

theorem mem_markerNames_elim {x : Line} {ls : List Line}
    (h : x ∈ markerNames ls) :
    ∃ l ∈ ls, isMarkerLine l = true ∧ extractName l = x := by
  unfold markerNames at h
  obtain ⟨l, hl, hx⟩ := List.mem_map.mp h
  obtain ⟨hmem, hmark⟩ := List.mem_filter.mp hl
  exact ⟨l, hmem, hmark, hx⟩

theorem foldl_content (content : List Line)
    (h : ∀ l ∈ content, isMarkerLine l = false ∧ isFenceLine l = false) :
    ∀ s : ScanState, s.code_block_active = true →
      List.foldl step s content = { s with buffer := s.buffer ++ content } := by
  induction content with
  | nil => intro s hs; simp
  | cons l tl ih =>
    intro s hs
    have hl := h l (by simp)
    rw [List.foldl_cons, step_content hl.1 hl.2 hs]
    have hnew : ({ s with buffer := s.buffer ++ [l] } : ScanState).code_block_active = true := hs
    rw [ih (fun x hx => h x (by simp [hx])) _ hnew]
    simp

theorem foldl_writes_shift (ls : List Line) :
    ∀ (cf : Option Line) (act : Bool) (buf : List Line)
      (w0 w : List (Line × Line)),
      List.foldl step ⟨cf, act, buf, w0 ++ w⟩ ls =
        { List.foldl step ⟨cf, act, buf, w⟩ ls with
          writes := w0 ++ (List.foldl step ⟨cf, act, buf, w⟩ ls).writes } := by
  induction ls with
  | nil => intro cf act buf w0 w; rfl
  | cons l tl ih =>
    intro cf act buf w0 w
    rw [List.foldl_cons, List.foldl_cons]
    by_cases h1 : isMarkerLine l = true
    · rw [step_marker _ _ h1, step_marker _ _ h1]
      exact ih (some (extractName l)) false [] w0 w
    · have h1' : isMarkerLine l = false := by simpa using h1
      by_cases h2 : (isFenceLine l && truthyName cf) = true
      · by_cases h3 : act = true
        · simp only [step, h1', h2, h3, Bool.false_eq_true, if_false, if_pos,
            if_true]
          rw [List.append_assoc]
          exact ih none false buf w0 (w ++ _)
        · have h3' : act = false := by simpa using h3
          simp only [step, h1', h2, h3', Bool.false_eq_true, if_false, if_pos,
            if_true]
          exact ih cf true buf w0 w
      · by_cases h3 : act = true
        · have hs2 : (isFenceLine l && truthyName cf) = false := by
            simpa using h2
          simp only [step, h1', hs2, h3, Bool.false_eq_true, if_false, if_true]
          exact ih cf true (buf ++ [l]) w0 w
        · have h3' : act = false := by simpa using h3
          have hs2 : (isFenceLine l && truthyName cf) = false := by
            simpa using h2
          simp only [step, h1', hs2, h3', Bool.false_eq_true, if_false]
          exact ih cf false buf w0 w

theorem step_buffer {s : ScanState} {l : Line} (h1 : isMarkerLine l = false)
    (h2 : (isFenceLine l && truthyName s.current_file) = false)
    (h3 : s.code_block_active = true) :
    step s l = { s with buffer := s.buffer ++ [l] } := by
  simp [step, h1, h2, h3]

theorem step_skip {s : ScanState} {l : Line} (h1 : isMarkerLine l = false)
    (h2 : (isFenceLine l && truthyName s.current_file) = false)
    (h3 : s.code_block_active = false) :
    step s l = s := by
  simp [step, h1, h2, h3]

theorem foldl_writes_extend (ls : List Line) :
    ∀ s : ScanState, ∃ t, (List.foldl step s ls).writes = s.writes ++ t ∧
      ∀ w ∈ t, w.1 ≠ [] ∧
        (w.1 ∈ markerNames ls ∨ s.current_file = some w.1) := by
  induction ls with
  | nil => intro s; exact ⟨[], by simp, by simp⟩
  | cons l tl ih =>
    intro s
    rw [List.foldl_cons]
    by_cases h1 : isMarkerLine l = true
    · rw [step_marker _ _ h1]
      obtain ⟨t, ht, hw⟩ := ih ⟨some (extractName l), false, [], s.writes⟩
      refine ⟨t, ht, ?_⟩
      intro w hwmem
      obtain ⟨hne, hd⟩ := hw w hwmem
      refine ⟨hne, Or.inl ?_⟩
      rw [markerNames_cons_marker h1]
      cases hd with
      | inl hmem => exact List.mem_cons_of_mem _ hmem
      | inr hcf =>
        have hx : extractName l = w.1 := by simpa using hcf
        rw [← hx]
        exact List.mem_cons_self _ _
    · have h1' : isMarkerLine l = false := by simpa using h1
      rw [markerNames_cons_not h1']
      by_cases h2 : (isFenceLine l && truthyName s.current_file) = true
      · have h2ab : isFenceLine l = true ∧ truthyName s.current_file = true := by
          rw [Bool.and_eq_true] at h2; exact h2
        have hfence := h2ab.1
        have htr := h2ab.2
        obtain ⟨n, hn, hne⟩ := truthyName_true_elim htr
        by_cases h3 : s.code_block_active = true
        · rw [step_fence_close hfence hn hne h3]
          obtain ⟨t, ht, hw⟩ := ih ⟨none, false, s.buffer,
            s.writes ++ [(n, List.intercalate newlineSep s.buffer)]⟩
          refine ⟨(n, List.intercalate newlineSep s.buffer) :: t, ?_, ?_⟩
          · rw [ht]; simp
          · intro w hwmem
            rcases List.mem_cons.mp hwmem with hw0 | hmem
            · subst hw0; exact ⟨hne, Or.inr hn⟩
            · obtain ⟨hne', hd⟩ := hw w hmem
              refine ⟨hne', ?_⟩
              cases hd with
              | inl hm => exact Or.inl hm
              | inr hcf => simp at hcf
        · have h3' : s.code_block_active = false := by simpa using h3
          rw [step_fence_open hfence htr h3']
          obtain ⟨t, ht, hw⟩ := ih { s with code_block_active := true }
          exact ⟨t, ht, fun w hm => hw w hm⟩
      · have h2' : (isFenceLine l && truthyName s.current_file) = false := by
          simpa using h2
        by_cases h3 : s.code_block_active = true
        · rw [step_buffer h1' h2' h3]
          obtain ⟨t, ht, hw⟩ := ih { s with buffer := s.buffer ++ [l] }
          exact ⟨t, ht, fun w hm => hw w hm⟩
        · have h3' : s.code_block_active = false := by simpa using h3
          rw [step_skip h1' h2' h3']
          exact ih s

/-- The reachable-state invariant of the scan loop: when a block is
active the current file is a non-empty name, and the current file (when
set) satisfies the name predicate `N`. -/
def cfInv (N : Line → Prop) (s : ScanState) : Prop :=
  (∀ n, s.current_file = some n → N n) ∧
  (s.code_block_active = true → ∃ n, s.current_file = some n ∧ n ≠ [])

theorem cfInv_mono {N M : Line → Prop} (h : ∀ n, N n → M n) {s : ScanState}
    (hs : cfInv N s) : cfInv M s :=
  ⟨fun n hn => h n (hs.1 n hn), hs.2⟩

theorem cfInv_foldl (ls : List Line) :
    ∀ (N : Line → Prop) (s : ScanState), cfInv N s →
      cfInv (fun n => N n ∨ n ∈ markerNames ls) (List.foldl step s ls) := by
  induction ls with
  | nil => intro N s hs; exact cfInv_mono (fun n hn => Or.inl hn) hs
  | cons l tl ih =>
    intro N s hs
    rw [List.foldl_cons]
    by_cases h1 : isMarkerLine l = true
    · rw [step_marker _ _ h1]
      have hs' : cfInv (fun n => N n ∨ n = extractName l)
          { s with current_file := some (extractName l), buffer := [],
                   code_block_active := false } := by
        constructor
        · intro n hn
          have hx : extractName l = n := by simpa using hn
          exact Or.inr hx.symm
        · intro hact; simp at hact
      refine cfInv_mono ?_ (ih _ _ hs')
      intro n hn
      rcases hn with (hN | hx) | hm
      · exact Or.inl hN
      · right; rw [markerNames_cons_marker h1, hx]; exact List.mem_cons_self _ _
      · right; rw [markerNames_cons_marker h1]; exact List.mem_cons_of_mem _ hm
    · have h1' : isMarkerLine l = false := by simpa using h1
      rw [markerNames_cons_not h1']
      by_cases h2 : (isFenceLine l && truthyName s.current_file) = true
      · have h2ab : isFenceLine l = true ∧ truthyName s.current_file = true := by
          rw [Bool.and_eq_true] at h2; exact h2
        have hfence := h2ab.1
        have htr := h2ab.2
        obtain ⟨n, hn, hne⟩ := truthyName_true_elim htr
        by_cases h3 : s.code_block_active = true
        · rw [step_fence_close hfence hn hne h3]
          apply ih
          constructor
          · intro m hm; simp at hm
          · intro hact; simp at hact
        · have h3' : s.code_block_active = false := by simpa using h3
          rw [step_fence_open hfence htr h3']
          apply ih
          exact ⟨fun m hm => hs.1 m hm, fun _ => ⟨n, hn, hne⟩⟩
      · have h2' : (isFenceLine l && truthyName s.current_file) = false := by
          simpa using h2
        by_cases h3 : s.code_block_active = true
        · rw [step_buffer h1' h2' h3]
          apply ih
          exact ⟨fun m hm => hs.1 m hm, fun _ => hs.2 h3⟩
        · have h3' : s.code_block_active = false := by simpa using h3
          rw [step_skip h1' h2' h3']
          exact ih N s hs

/-- Scanning `pre ++ m :: o :: content`, where `m` is a marker line for
the non-empty name `fname`, `o` an opening fence and `content` plain
content lines, ends with `fname`'s block open and `content` buffered. -/
theorem scan_open_state (pre content : List Line) {m o fname : Line}
    (hm : isMarkerLine m = true) (hname : extractName m = fname)
    (hne : fname ≠ []) (ho : isFenceLine o = true)
    (hc : ∀ l ∈ content, isMarkerLine l = false ∧ isFenceLine l = false) :
    List.foldl step initState (pre ++ m :: o :: content) =
      ⟨some fname, true, content, (List.foldl step initState pre).writes⟩ := by
  rw [List.foldl_append, List.foldl_cons, List.foldl_cons]
  have h1 : step (List.foldl step initState pre) m =
      ⟨some fname, false, [], (List.foldl step initState pre).writes⟩ := by
    rw [step_marker _ _ hm, hname]
  rw [h1]
  have h2 : step (⟨some fname, false, [],
      (List.foldl step initState pre).writes⟩ : ScanState) o =
      ⟨some fname, true, [], (List.foldl step initState pre).writes⟩ := by
    rw [step_fence_open ho (truthyName_some hne) rfl]
  rw [h2]
  rw [foldl_content content hc
    ⟨some fname, true, [], (List.foldl step initState pre).writes⟩ rfl]
  rfl

/-- A response consisting of one well-formed block for `fname` (plus
arbitrary surrounding lines whose markers never name `fname`) produces
exactly one write for `fname`, whose content is the block's content lines
joined by newlines. -/
theorem scan_single_block (pre post content : List Line) {m o cl fname : Line}
    (hm : isMarkerLine m = true) (hname : extractName m = fname)
    (hne : fname ≠ []) (ho : isFenceLine o = true) (hcl : isFenceLine cl = true)
    (hc : ∀ l ∈ content, isMarkerLine l = false ∧ isFenceLine l = false)
    (hpre : ∀ l ∈ pre, isMarkerLine l = true → extractName l ≠ fname)
    (hpost : ∀ l ∈ post, isMarkerLine l = true → extractName l ≠ fname) :
    ((scanLines (pre ++ m :: o :: (content ++ cl :: post))).writes).filter
      (fun w => w.1 == fname) =
      [(fname, List.intercalate newlineSep content)] := by
  unfold scanLines
  have hassoc : pre ++ m :: o :: (content ++ cl :: post) =
      (pre ++ m :: o :: content) ++ (cl :: post) := by simp
  rw [hassoc, List.foldl_append, scan_open_state pre content hm hname hne ho hc,
    List.foldl_cons]
  rw [step_fence_close hcl rfl hne rfl]
  obtain ⟨t, ht, hw⟩ := foldl_writes_extend post ⟨none, false, content,
    (List.foldl step initState pre).writes ++
      [(fname, List.intercalate newlineSep content)]⟩
  rw [ht]
  obtain ⟨t0, ht0, hw0⟩ := foldl_writes_extend pre initState
  rw [List.filter_append, List.filter_append]
  have hfil0 : (List.foldl step initState pre).writes.filter
      (fun w => w.1 == fname) = [] := by
    rw [List.filter_eq_nil_iff]
    intro w hwmem
    rw [ht0] at hwmem
    have hwmem' : w ∈ t0 := hwmem
    obtain ⟨hne', hd⟩ := hw0 w hwmem'
    cases hd with
    | inl hmm =>
      obtain ⟨l, hl, hml, hex⟩ := mem_markerNames_elim hmm
      have hxx := hpre l hl hml
      rw [hex] at hxx
      simp [hxx]
    | inr hcf => simp [initState] at hcf
  have hfil2 : t.filter (fun w => w.1 == fname) = [] := by
    rw [List.filter_eq_nil_iff]
    intro w hwmem
    obtain ⟨hne', hd⟩ := hw w hwmem
    cases hd with
    | inl hmm =>
      obtain ⟨l, hl, hml, hex⟩ := mem_markerNames_elim hmm
      have hxx := hpost l hl hml
      rw [hex] at hxx
      simp [hxx]
    | inr hcf => simp at hcf
  rw [hfil0, hfil2]
  simp

theorem applyWrites_filter_nil {ws : List (Line × Line)} {n : Line}
    (h : ws.filter (fun w => w.1 == n) = []) (fs : Line → Option Line) :
    applyWrites fs ws n = fs n := by
  induction ws generalizing fs with
  | nil => rfl
  | cons w ws' ih =>
    rw [List.filter_cons] at h
    by_cases hw : (w.1 == n) = true
    · rw [if_pos hw] at h; simp at h
    · rw [if_neg hw] at h
      show applyWrites (fun p => if p = w.1 then some w.2 else fs p) ws' n = fs n
      rw [ih h]
      have hnw : ¬ n = w.1 := by
        intro hh
        rw [hh] at hw
        exact hw (beq_self_eq_true _)
      rw [if_neg hnw]

theorem applyWrites_filter_single {ws : List (Line × Line)} {n c : Line}
    (h : ws.filter (fun w => w.1 == n) = [(n, c)]) (fs : Line → Option Line) :
    applyWrites fs ws n = some c := by
  induction ws generalizing fs with
  | nil => simp [List.filter] at h
  | cons w ws' ih =>
    rw [List.filter_cons] at h
    by_cases hw : (w.1 == n) = true
    · rw [if_pos hw] at h
      have hw1 : w = (n, c) ∧ ws'.filter (fun w => w.1 == n) = [] := by
        constructor
        · exact (List.cons_eq_cons.mp h).1
        · exact (List.cons_eq_cons.mp h).2
      show applyWrites (fun p => if p = w.1 then some w.2 else fs p) ws' n =
        some c
      rw [applyWrites_filter_nil hw1.2]
      rw [hw1.1]
      simp
    · rw [if_neg hw] at h
      exact ih h _

/-- `List.find?` either fails everywhere or returns the first match. -/
theorem find?_first (p : Line → Bool) (l : List Line) :
    (l.find? p = none ∧ ∀ a ∈ l, p a = false) ∨
    (∃ x pre post, l.find? p = some x ∧ p x = true ∧
      l = pre ++ x :: post ∧ ∀ a ∈ pre, p a = false) := by
  induction l with
  | nil => left; exact ⟨rfl, by simp⟩
  | cons a tl ih =>
    by_cases hp : p a = true
    · right
      exact ⟨a, [], tl, by simp [List.find?, hp], hp, rfl, by simp⟩
    · have hp' : p a = false := by simpa using hp
      cases ih with
      | inl hnone =>
        left
        constructor
        · simp [List.find?, hp', hnone.1]
        · intro x hx
          rcases List.mem_cons.mp hx with rfl | hmem
          · exact hp'
          · exact hnone.2 x hmem
      | inr hsome =>
        obtain ⟨x, pre, post, hfind, hpx, hdec, hprefail⟩ := hsome
        right
        refine ⟨x, a :: pre, post, ?_, hpx, by rw [hdec]; rfl, ?_⟩
        · simp [List.find?, hp', hfind]
        · intro y hy
          rcases List.mem_cons.mp hy with rfl | hmem
          · exact hp'
          · exact hprefail y hmem

/-- If no marker line of `ls` names `fname`, the starting state's pending
file is not `fname`, and no pending write names `fname`, then scanning
`ls` produces no write for `fname`. -/
theorem foldl_writes_filter_nil (ls : List Line) (s : ScanState) {fname : Line}
    (hls : ∀ l ∈ ls, isMarkerLine l = true → extractName l ≠ fname)
    (hs : s.writes.filter (fun w => w.1 == fname) = [])
    (hcf : ∀ n, s.current_file = some n → n ≠ fname) :
    ((List.foldl step s ls).writes).filter (fun w => w.1 == fname) = [] := by
  obtain ⟨t, ht, hw⟩ := foldl_writes_extend ls s
  rw [ht, List.filter_append, hs, List.nil_append, List.filter_eq_nil_iff]
  intro w hwmem
  obtain ⟨hne', hd⟩ := hw w hwmem
  cases hd with
  | inl hmm =>
    obtain ⟨l, hl, hml, hex⟩ := mem_markerNames_elim hmm
    have hxx := hls l hl hml
    rw [hex] at hxx
    simp [hxx]
  | inr hcf' =>
    have hxx := hcf w.1 hcf'
    simp [hxx]

theorem readPaths_append (a b : List Effect) :
    readPaths (a ++ b) = readPaths a ++ readPaths b := by
  simp [readPaths]

theorem writePaths_append (a b : List Effect) :
    writePaths (a ++ b) = writePaths a ++ writePaths b := by
  simp [writePaths]

theorem readPaths_map_printOut {α : Type} (l : List α) (f : α → Line) :
    readPaths (l.map (fun m => Effect.printOut (f m))) = [] := by
  induction l with
  | nil => rfl
  | cons a tl ih => simpa [readPaths, List.filterMap_cons] using ih

theorem writePaths_map_printOut {α : Type} (l : List α) (f : α → Line) :
    writePaths (l.map (fun m => Effect.printOut (f m))) = [] := by
  induction l with
  | nil => rfl
  | cons a tl ih => simpa [writePaths, List.filterMap_cons] using ih

theorem writePaths_updates (ws : List (Line × Line)) :
    writePaths (ws.flatMap (fun w =>
      [Effect.printOut ("Updating ".toList ++ w.1 ++ "...".toList),
       Effect.fileWrite w.1 w.2])) = ws.map (fun w => w.1) := by
  induction ws with
  | nil => rfl
  | cons w ws' ih =>
    simpa [writePaths, List.filterMap_cons, List.flatMap_cons] using ih

theorem readPaths_updates (ws : List (Line × Line)) :
    readPaths (ws.flatMap (fun w =>
      [Effect.printOut ("Updating ".toList ++ w.1 ++ "...".toList),
       Effect.fileWrite w.1 w.2])) = [] := by
  induction ws with
  | nil => rfl
  | cons w ws' ih =>
    simpa [readPaths, List.filterMap_cons, List.flatMap_cons] using ih

/-! ### The claims -/

/-- C1: a response containing exactly one well-formed `FILE:`/fence/fence
block for `fname` (marker line, opening fence, content lines, closing
fence; no other marker line names `fname`) produces exactly one write for
`fname`, whose content is precisely the content lines joined by single
newlines — no fence lines, no language tag, no marker line, no added
blank lines — and the file's resulting on-disk content equals that
joined content. -/
theorem c1_well_formed_block (text : Line) (pre post content : List Line)
    (m o cl fname : Line)
    (hsplit : pySplit newlineSep text = pre ++ m :: o :: (content ++ cl :: post))
    (hm : isMarkerLine m = true) (hname : extractName m = fname)
    (hne : fname ≠ []) (ho : isFenceLine o = true) (hcl : isFenceLine cl = true)
    (hc : ∀ l ∈ content, isMarkerLine l = false ∧ isFenceLine l = false)
    (hpre : ∀ l ∈ pre, isMarkerLine l = true → extractName l ≠ fname)
    (hpost : ∀ l ∈ post, isMarkerLine l = true → extractName l ≠ fname) :
    (applyResponse text).filter (fun w => w.1 == fname) =
      [(fname, List.intercalate newlineSep content)] ∧
    ∀ fs : Line → Option Line,
      applyWrites fs (applyResponse text) fname =
        some (List.intercalate newlineSep content) := by
  have h : (applyResponse text).filter (fun w => w.1 == fname) =
      [(fname, List.intercalate newlineSep content)] := by
    unfold applyResponse
    rw [hsplit]
    exact scan_single_block pre post content hm hname hne ho hcl hc hpre hpost
  exact ⟨h, fun fs => applyWrites_filter_single h fs⟩

/-- Witness for C1: the response
`intro\nFILE: index.html\n(fence)html\n<h1>hi</h1>\n\n(fence)\nbye`
writes exactly `<h1>hi</h1>\n` (content lines joined by newline) to
`index.html`. -/
theorem c1_well_formed_block_witness :
    (applyResponse
        ("intro\nFILE: index.html\n```html\n<h1>hi</h1>\n\n```\nbye".toList)).filter
        (fun w => w.1 == "index.html".toList) =
      [("index.html".toList,
        List.intercalate newlineSep ["<h1>hi</h1>".toList, "".toList])] ∧
    ∀ fs : Line → Option Line,
      applyWrites fs
          (applyResponse
            ("intro\nFILE: index.html\n```html\n<h1>hi</h1>\n\n```\nbye".toList))
          ("index.html".toList) =
        some (List.intercalate newlineSep ["<h1>hi</h1>".toList, "".toList]) :=
  c1_well_formed_block _ ["intro".toList] ["bye".toList]
    ["<h1>hi</h1>".toList, "".toList] ("FILE: index.html".toList)
    ("```html".toList) ("```".toList) ("index.html".toList)
    (by decide) (by decide) (by decide) (by decide) (by decide) (by decide)
    (by decide) (by decide) (by decide)

/-- C2: when a `FILE:` marker for file B appears after file A's opening
fence but before A's closing fence (so the intervening lines are plain
content lines), file A is never written — its partial content is
discarded — and the remaining writes are exactly those of scanning B's
marker and the rest of the response from a fresh state, so B is written
if and only if B's own block is subsequently properly opened and
closed. -/
theorem c2_interrupted_block (text : Line) (pre mid rest : List Line)
    (mA oA mB nameA nameB : Line)
    (hsplit : pySplit newlineSep text = pre ++ mA :: oA :: (mid ++ mB :: rest))
    (hmA : isMarkerLine mA = true) (hnameA : extractName mA = nameA)
    (hneA : nameA ≠ []) (hoA : isFenceLine oA = true)
    (hmid : ∀ l ∈ mid, isMarkerLine l = false ∧ isFenceLine l = false)
    (hmB : isMarkerLine mB = true) (hnameB : extractName mB = nameB)
    (hBA : nameB ≠ nameA)
    (hpre : ∀ l ∈ pre, isMarkerLine l = true → extractName l ≠ nameA)
    (hrest : ∀ l ∈ rest, isMarkerLine l = true → extractName l ≠ nameA) :
    (applyResponse text).filter (fun w => w.1 == nameA) = [] ∧
    applyResponse text =
      (List.foldl step initState pre).writes ++
        (scanLines (mB :: rest)).writes := by
  unfold applyResponse scanLines
  rw [hsplit]
  have hassoc : pre ++ mA :: oA :: (mid ++ mB :: rest) =
      (pre ++ mA :: oA :: mid) ++ (mB :: rest) := by simp
  rw [hassoc, List.foldl_append,
    scan_open_state pre mid hmA hnameA hneA hoA hmid, List.foldl_cons,
    List.foldl_cons]
  have hstepB : step (⟨some nameA, true, mid,
      (List.foldl step initState pre).writes⟩ : ScanState) mB =
      ⟨some nameB, false, [], (List.foldl step initState pre).writes⟩ := by
    rw [step_marker _ _ hmB, hnameB]
  have hstepB0 : step initState mB = ⟨some nameB, false, [], []⟩ := by
    rw [step_marker _ _ hmB, hnameB]
    rfl
  rw [hstepB, hstepB0]
  have hshift := foldl_writes_shift rest (some nameB) false []
    (List.foldl step initState pre).writes []
  rw [List.append_nil] at hshift
  rw [hshift]
  constructor
  · show ((List.foldl step initState pre).writes ++
        (List.foldl step (⟨some nameB, false, [], []⟩ : ScanState) rest).writes).filter
        (fun w => w.1 == nameA) = []
    rw [List.filter_append]
    have hfA : ((List.foldl step initState pre).writes).filter
        (fun w => w.1 == nameA) = [] :=
      foldl_writes_filter_nil pre initState hpre rfl
        (fun n h => by simp [initState] at h)
    have hfB : ((List.foldl step
        (⟨some nameB, false, [], []⟩ : ScanState) rest).writes).filter
        (fun w => w.1 == nameA) = [] :=
      foldl_writes_filter_nil rest _ hrest rfl (fun n h => by
        have hh : nameB = n := by simpa using h
        rw [← hh]; exact hBA)
    rw [hfA, hfB]; rfl
  · rfl

/-- Witness for C2: `FILE: a.css` opens a block that is interrupted by
`FILE: b.css`; `a.css` is never written and `b.css` is written with its
own properly closed block's content. -/
theorem c2_interrupted_block_witness :
    (applyResponse
        ("FILE: a.css\n```css\nlost\nFILE: b.css\n```\nkept\n```".toList)).filter
        (fun w => w.1 == "a.css".toList) = [] ∧
    applyResponse
        ("FILE: a.css\n```css\nlost\nFILE: b.css\n```\nkept\n```".toList) =
      (List.foldl step initState []).writes ++
        (scanLines ["FILE: b.css".toList, "```".toList, "kept".toList,
          "```".toList]).writes :=
  c2_interrupted_block _ [] ["lost".toList]
    ["```".toList, "kept".toList, "```".toList] ("FILE: a.css".toList)
    ("```css".toList) ("FILE: b.css".toList) ("a.css".toList) ("b.css".toList)
    (by decide) (by decide) (by decide) (by decide) (by decide) (by decide)
    (by decide) (by decide) (by decide) (by decide) (by decide)

/-- C6: if the response ends while a block for `fname` is still open (a
marker and an opening fence were seen, but no closing fence follows),
`fname` is never written: the buffered content is silently discarded and
the filesystem entry for `fname` is untouched. -/
theorem c6_unterminated_block (text : Line) (pre content : List Line)
    (m o fname : Line)
    (hsplit : pySplit newlineSep text = pre ++ m :: o :: content)
    (hm : isMarkerLine m = true) (hname : extractName m = fname)
    (hne : fname ≠ []) (ho : isFenceLine o = true)
    (hc : ∀ l ∈ content, isMarkerLine l = false ∧ isFenceLine l = false)
    (hpre : ∀ l ∈ pre, isMarkerLine l = true → extractName l ≠ fname) :
    (applyResponse text).filter (fun w => w.1 == fname) = [] ∧
    ∀ fs : Line → Option Line,
      applyWrites fs (applyResponse text) fname = fs fname := by
  have hfil : (applyResponse text).filter (fun w => w.1 == fname) = [] := by
    unfold applyResponse scanLines
    rw [hsplit, scan_open_state pre content hm hname hne ho hc]
    show ((List.foldl step initState pre).writes).filter
      (fun w => w.1 == fname) = []
    exact foldl_writes_filter_nil pre initState hpre rfl
      (fun n h => by simp [initState] at h)
  exact ⟨hfil, fun fs => applyWrites_filter_nil hfil fs⟩

/-- Witness for C6: a response whose block for `a.txt` is never closed
writes nothing to `a.txt`. -/
theorem c6_unterminated_block_witness :
    (applyResponse ("FILE: a.txt\n```\ndangling".toList)).filter
        (fun w => w.1 == "a.txt".toList) = [] ∧
    ∀ fs : Line → Option Line,
      applyWrites fs (applyResponse ("FILE: a.txt\n```\ndangling".toList))
        ("a.txt".toList) = fs ("a.txt".toList) :=
  c6_unterminated_block _ [] ["dangling".toList] ("FILE: a.txt".toList)
    ("```".toList) ("a.txt".toList)
    (by decide) (by decide) (by decide) (by decide) (by decide) (by decide)
    (by decide)

/-- Counterexample for C7: on the marker line `FILE: a FILE: b` the code
sets `current_file` to `a` — `line.split("FILE: ")[1]` is only the
segment between the first and second occurrences of the marker — whereas
the trimmed remainder of the line after the marker is `a FILE: b`. -/
theorem c7_counterexample :
    isMarkerLine ("FILE: a FILE: b".toList) = true ∧
    (step initState ("FILE: a FILE: b".toList)).current_file =
      some ("a".toList) ∧
    pyStrip (("FILE: a FILE: b".toList).drop fileMarker.length) =
      "a FILE: b".toList ∧
    ("a".toList : Line) ≠ "a FILE: b".toList := by decide

/-- C7 as amended: for every line beginning with `FILE: ` (in any scanner
state) the buffer is cleared and `code_block_active` reset to false, and
`current_file` is set to the trimmed remainder of the line after the
marker when the remainder contains no further occurrence of `FILE: `;
when it does, `current_file` is the trimmed segment strictly between the
first and second occurrences. -/
theorem c7_marker_transition (s : ScanState) (r b a : Line) :
    (splitFirst fileMarker r = none →
      step s (fileMarker ++ r) =
        { s with current_file := some (pyStrip r), buffer := [],
                 code_block_active := false }) ∧
    (splitFirst fileMarker r = some (b, a) →
      step s (fileMarker ++ r) =
        { s with current_file := some (pyStrip b), buffer := [],
                 code_block_active := false }) := by
  constructor
  · intro h
    rw [step_marker _ _ (isMarkerLine_append r), extractName_append_none h]
  · intro h
    rw [step_marker _ _ (isMarkerLine_append r), extractName_append_some h]

/-- Witness for C7 (amended): on `FILE: index.html` the scanner state
becomes `current_file = index.html`, empty buffer, inactive block. -/
theorem c7_marker_transition_witness :
    splitFirst fileMarker ("index.html".toList) = none ∧
    step initState ("FILE: index.html".toList) =
      { initState with current_file := some (pyStrip ("index.html".toList)),
                       buffer := [], code_block_active := false } :=
  ⟨by decide,
    (c7_marker_transition initState ("index.html".toList) [] []).1 (by decide)⟩

/-- C10: invariants of the response-applier scan.  (i) At every prefix of
the scan, an active code block implies `current_file` holds a non-empty
name taken from an earlier `FILE: ` marker line.  (ii) Every write
performed targets a non-empty name extracted from some marker line of the
response.  (iii) A response with no `FILE: ` markers produces no writes
at all. -/
theorem c10_scan_invariant (ls : List Line) :
    (∀ pre suf, ls = pre ++ suf →
      (List.foldl step initState pre).code_block_active = true →
      ∃ n, (List.foldl step initState pre).current_file = some n ∧ n ≠ [] ∧
        n ∈ markerNames pre) ∧
    (∀ w ∈ (scanLines ls).writes, w.1 ≠ [] ∧ w.1 ∈ markerNames ls) ∧
    ((∀ l ∈ ls, isMarkerLine l = false) → (scanLines ls).writes = []) := by
  have hbase : cfInv (fun _ => False) initState := by
    constructor
    · intro n hn; simp [initState] at hn
    · intro h; simp [initState] at h
  refine ⟨?_, ?_, ?_⟩
  · intro pre suf hdec hact
    have hinv := cfInv_foldl pre (fun _ => False) initState hbase
    obtain ⟨n, hn, hne⟩ := hinv.2 hact
    rcases hinv.1 n hn with hF | hmm
    · exact hF.elim
    · exact ⟨n, hn, hne, hmm⟩
  · intro w hw
    obtain ⟨t, ht, hwp⟩ := foldl_writes_extend ls initState
    have hw2 : w ∈ t := by
      have hx : w ∈ (List.foldl step initState ls).writes := hw
      rw [ht] at hx
      exact hx
    obtain ⟨hne, hd⟩ := hwp w hw2
    cases hd with
    | inl h => exact ⟨hne, h⟩
    | inr h => simp [initState] at h
  · intro hnone
    have hmn : markerNames ls = [] := by
      unfold markerNames
      have hf : ls.filter isMarkerLine = [] := by
        rw [List.filter_eq_nil_iff]
        intro a ha
        simp [hnone a ha]
      rw [hf]
      rfl
    apply List.eq_nil_iff_forall_not_mem.mpr
    intro w hw
    obtain ⟨t, ht, hwp⟩ := foldl_writes_extend ls initState
    have hw2 : w ∈ t := by
      have hx : w ∈ (List.foldl step initState ls).writes := hw
      rw [ht] at hx
      exact hx
    obtain ⟨hne, hd⟩ := hwp w hw2
    cases hd with
    | inl h => rw [hmn] at h; simp at h
    | inr h => simp [initState] at h

/-- Witness for C10: a marker-free response produces no writes, and after
its first line no block is active without a marker-supplied name. -/
theorem c10_scan_invariant_witness :
    (scanLines ["hello".toList, "```".toList, "world".toList]).writes = [] :=
  (c10_scan_invariant ["hello".toList, "```".toList, "world".toList]).2.2
    (by decide)

/-- C4: when the model-provider credential is unset or empty, `main`
prints the diagnostic and returns normally: the trace is exactly the one
credential lookup and the error message — no file reads, no file writes,
no model calls, no further environment reads — and the filesystem is
unchanged. -/
theorem c4_missing_credential (env fs : Line → Option Line)
    (yielded : List ModelInfo) (enumErr : Option Line)
    (genResult : Except Line Line)
    (h : truthyName (env keyGemini) = false) :
    mainRun env fs yielded enumErr genResult =
      ([Effect.envRead keyGemini,
        Effect.printOut ("Error: GEMINI_API_KEY not found.".toList)],
       Except.ok (), fs) ∧
    readPaths (mainRun env fs yielded enumErr genResult).1 = [] ∧
    writePaths (mainRun env fs yielded enumErr genResult).1 = [] ∧
    Effect.listModels ∉ (mainRun env fs yielded enumErr genResult).1 ∧
    (∀ mn p, Effect.generate mn p ∉ (mainRun env fs yielded enumErr genResult).1) ∧
    (∀ k, Effect.envRead k ∈ (mainRun env fs yielded enumErr genResult).1 →
      k = keyGemini) := by
  have he : mainRun env fs yielded enumErr genResult =
      ([Effect.envRead keyGemini,
        Effect.printOut ("Error: GEMINI_API_KEY not found.".toList)],
       Except.ok (), fs) := by
    simp [mainRun, h]
  refine ⟨he, ?_, ?_, ?_, ?_, ?_⟩
  · rw [he]; rfl
  · rw [he]; rfl
  · rw [he]; simp
  · intro mn p; rw [he]; simp
  · intro k hk
    rw [he] at hk
    simp at hk
    exact hk

/-- Witness for C4: with an empty environment nothing is read, written or
called and the run returns normally after the diagnostic. -/
theorem c4_missing_credential_witness :
    mainRun (fun _ => none) (fun _ => none) [] none
        (Except.ok ("".toList)) =
      ([Effect.envRead keyGemini,
        Effect.printOut ("Error: GEMINI_API_KEY not found.".toList)],
       Except.ok (), (fun _ => none)) :=
  (c4_missing_credential (fun _ => none) (fun _ => none) [] none
    (Except.ok ("".toList)) (by decide)).1

/-- C8: with the credential present but the issue-number environment
variable absent or non-numeric, `int(...)` fails and the exception
propagates out of `main`: the run dies with the conversion error right
after the four environment reads, untouched by any handler, with no file
or model effects. -/
theorem c8_issue_number_crash (env fs : Line → Option Line)
    (yielded : List ModelInfo) (enumErr : Option Line)
    (genResult : Except Line Line)
    (h1 : truthyName (env keyGemini) = true)
    (h2 : pyInt (env keyIssueNumber) = none) :
    mainRun env fs yielded enumErr genResult =
      ([Effect.envRead keyGemini, Effect.envRead keyGithub,
        Effect.envRead keyRepo, Effect.envRead keyIssueNumber],
       Except.error RunError.intConversion, fs) := by
  simp [mainRun, h1, h2]

/-- Witness for C8: credential set, `ISSUE_NUMBER` unset — the run
crashes with the conversion error. -/
theorem c8_issue_number_crash_witness :
    mainRun (fun k => if k = keyGemini then some ("secret".toList) else none)
        (fun _ => none) [] none (Except.ok ("".toList)) =
      ([Effect.envRead keyGemini, Effect.envRead keyGithub,
        Effect.envRead keyRepo, Effect.envRead keyIssueNumber],
       Except.error RunError.intConversion, (fun _ => none)) :=
  c8_issue_number_crash
    (fun k => if k = keyGemini then some ("secret".toList) else none)
    (fun _ => none) [] none (Except.ok ("".toList)) (by decide) (by decide)

/-- Counterexample for C5: the enumeration yields
`models/gemini-pro` (which supports generation) and then raises.  The
exception is caught and logged, but the selector does NOT return the
fixed fallback `'gemini-pro'`: the name appended before the exception is
still in `available_models`, so the priority match wins. -/
theorem c5_counterexample :
    selectedModelOf
        [⟨"models/gemini-pro".toList, ["generateContent".toList]⟩]
        (some ("boom".toList)) = "models/gemini-pro".toList ∧
    ("models/gemini-pro".toList : Line) ≠ "gemini-pro".toList := by decide

/-- C5 as amended: the selector never raises and returns the first entry
of the fixed 8-entry priority list among the names collected from the
enumeration (the names yielded before an exception still count, whether
or not the enumeration then raised); the fallback `'gemini-pro'` is
returned exactly when no priority entry is among the collected names. -/
theorem c5_priority_selection (yielded : List ModelInfo)
    (enumErr : Option Line) :
    (∃ x pre post, priority_models = pre ++ x :: post ∧
      selectedModelOf yielded enumErr = x ∧
      (availableModelsOf yielded).contains x = true ∧
      ∀ q ∈ pre, (availableModelsOf yielded).contains q = false) ∨
    ((∀ q ∈ priority_models, (availableModelsOf yielded).contains q = false) ∧
      selectedModelOf yielded enumErr = "gemini-pro".toList) := by
  unfold selectedModelOf selectModel
  rcases find?_first (fun p => (availableModelsOf yielded).contains p)
      priority_models with ⟨hnone, hall⟩ | ⟨x, pre, post, hfind, hpx, hdec, hfail⟩
  · right
    rw [hnone]
    exact ⟨hall, rfl⟩
  · left
    exact ⟨x, pre, post, hdec, by rw [hfind], hpx, hfail⟩

/-- Witness for C5 (amended), at a catalog containing a lower-priority
model but missing all higher-priority ones: the selector picks
`models/gemini-2.5-pro`, skipping the two absent higher-priority
entries. -/
theorem c5_priority_selection_witness :
    (∃ x pre post, priority_models = pre ++ x :: post ∧
      selectedModelOf
          [⟨"models/gemini-2.5-pro".toList, ["generateContent".toList]⟩]
          none = x ∧
      (availableModelsOf
          [⟨"models/gemini-2.5-pro".toList, ["generateContent".toList]⟩]).contains
          x = true ∧
      ∀ q ∈ pre,
        (availableModelsOf
          [⟨"models/gemini-2.5-pro".toList, ["generateContent".toList]⟩]).contains
          q = false) ∨
    ((∀ q ∈ priority_models,
        (availableModelsOf
          [⟨"models/gemini-2.5-pro".toList, ["generateContent".toList]⟩]).contains
          q = false) ∧
      selectedModelOf
          [⟨"models/gemini-2.5-pro".toList, ["generateContent".toList]⟩]
          none = "gemini-pro".toList) :=
  c5_priority_selection
    [⟨"models/gemini-2.5-pro".toList, ["generateContent".toList]⟩] none

/-- Shape of a complete run: with the credential present and a numeric
issue number, a successful generation call leads to the full trace, a
normal return, and the response's writes applied to the filesystem. -/
theorem mainRun_ok_eq (env fs : Line → Option Line) (yielded : List ModelInfo)
    (enumErr : Option Line) (text : Line) (k : Int)
    (h1 : truthyName (env keyGemini) = true)
    (h2 : pyInt (env keyIssueNumber) = some k) :
    mainRun env fs yielded enumErr (Except.ok text) =
      ([Effect.envRead keyGemini, Effect.envRead keyGithub,
        Effect.envRead keyRepo, Effect.envRead keyIssueNumber,
        Effect.envRead keyIssueBody, Effect.configure,
        Effect.printOut ("Listing available models...".toList),
        Effect.listModels]
       ++ foundPrints yielded
       ++ (match enumErr with
           | some e => [Effect.printOut ("Error listing models: ".toList ++ e)]
           | none => [])
       ++ (if (priority_models.find? (fun p =>
             (availableModelsOf yielded).contains p)).isNone then
             [Effect.printOut
               ("Could not find a preferred model in the list. Attempting 'gemini-pro' as fallback.".toList)]
           else [])
       ++ [Effect.printOut
             ("Selected model: ".toList ++ selectedModelOf yielded enumErr),
           Effect.fileRead fileIndexHtml, Effect.fileRead fileStyleCss,
           Effect.printOut ("Sending request to Gemini...".toList),
           Effect.generate (selectedModelOf yielded enumErr)
             (promptOf (env keyIssueBody) (contentOf fs fileIndexHtml)
               (contentOf fs fileStyleCss)),
           Effect.printOut ("Received response from Gemini.".toList)]
       ++ (applyResponse text).flatMap (fun w =>
            [Effect.printOut ("Updating ".toList ++ w.1 ++ "...".toList),
             Effect.fileWrite w.1 w.2]),
       Except.ok (), applyWrites fs (applyResponse text)) := by
  simp [mainRun, h1, h2]

/-- Shape of a run whose generation call raises: same trace up to the
generation attempt, error outcome, filesystem untouched. -/
theorem mainRun_err_eq (env fs : Line → Option Line) (yielded : List ModelInfo)
    (enumErr : Option Line) (e : Line) (k : Int)
    (h1 : truthyName (env keyGemini) = true)
    (h2 : pyInt (env keyIssueNumber) = some k) :
    mainRun env fs yielded enumErr (Except.error e) =
      ([Effect.envRead keyGemini, Effect.envRead keyGithub,
        Effect.envRead keyRepo, Effect.envRead keyIssueNumber,
        Effect.envRead keyIssueBody, Effect.configure,
        Effect.printOut ("Listing available models...".toList),
        Effect.listModels]
       ++ foundPrints yielded
       ++ (match enumErr with
           | some e' => [Effect.printOut ("Error listing models: ".toList ++ e')]
           | none => [])
       ++ (if (priority_models.find? (fun p =>
             (availableModelsOf yielded).contains p)).isNone then
             [Effect.printOut
               ("Could not find a preferred model in the list. Attempting 'gemini-pro' as fallback.".toList)]
           else [])
       ++ [Effect.printOut
             ("Selected model: ".toList ++ selectedModelOf yielded enumErr),
           Effect.fileRead fileIndexHtml, Effect.fileRead fileStyleCss,
           Effect.printOut ("Sending request to Gemini...".toList),
           Effect.generate (selectedModelOf yielded enumErr)
             (promptOf (env keyIssueBody) (contentOf fs fileIndexHtml)
               (contentOf fs fileStyleCss))],
       Except.error (RunError.generationFailure e), fs) := by
  simp [mainRun, h1, h2]

theorem readPaths_enumErrChunk (enumErr : Option Line) :
    readPaths (match enumErr with
      | some e => [Effect.printOut ("Error listing models: ".toList ++ e)]
      | none => []) = [] := by
  cases enumErr <;> rfl

theorem writePaths_enumErrChunk (enumErr : Option Line) :
    writePaths (match enumErr with
      | some e => [Effect.printOut ("Error listing models: ".toList ++ e)]
      | none => []) = [] := by
  cases enumErr <;> rfl

theorem readPaths_foundPrints (y : List ModelInfo) :
    readPaths (foundPrints y) = [] := by
  unfold foundPrints
  exact readPaths_map_printOut _ _

theorem writePaths_foundPrints (y : List ModelInfo) :
    writePaths (foundPrints y) = [] := by
  unfold foundPrints
  exact writePaths_map_printOut _ _

/-- Counterexample for C3: a run whose model response names `evil.txt`
writes `evil.txt`, a path distinct from the two fixed targets — the set
of overwritable paths is not limited to `index.html` and `style.css`. -/
theorem c3_counterexample :
    Effect.fileWrite ("evil.txt".toList) ("x".toList) ∈
      (mainRun
        (fun kk => if kk = keyGemini then some ("secret".toList)
                   else if kk = keyIssueNumber then some ("1".toList) else none)
        (fun _ => none) [] none
        (Except.ok ("FILE: evil.txt\n```\nx\n```".toList))).1 ∧
    ("evil.txt".toList : Line) ≠ fileIndexHtml ∧
    ("evil.txt".toList : Line) ≠ fileStyleCss := by
  refine ⟨?_, by decide, by decide⟩
  rw [mainRun_ok_eq _ _ _ _ _ 1 (by decide) (by decide)]
  have happ : applyResponse ("FILE: evil.txt\n```\nx\n```".toList) =
      [("evil.txt".toList, "x".toList)] := by decide
  rw [happ]
  simp

/-- C3 as amended: on every run that reaches the pipeline body, exactly
the two fixed relative paths `index.html` and `style.css` are read, in
that order; but the paths written are exactly the (non-empty) names
extracted from the `FILE: ` marker lines of completed blocks of the
model response, which need not be among the two fixed paths. -/
theorem c3_read_write_frame (env fs : Line → Option Line)
    (yielded : List ModelInfo) (enumErr : Option Line)
    (genResult : Except Line Line) (k : Int)
    (h1 : truthyName (env keyGemini) = true)
    (h2 : pyInt (env keyIssueNumber) = some k) :
    readPaths (mainRun env fs yielded enumErr genResult).1 =
      [fileIndexHtml, fileStyleCss] ∧
    ∀ n ∈ writePaths (mainRun env fs yielded enumErr genResult).1,
      n ≠ [] ∧ ∃ text, genResult = Except.ok text ∧
        n ∈ markerNames (pySplit newlineSep text) := by
  cases genResult with
  | error e =>
    rw [mainRun_err_eq env fs yielded enumErr e k h1 h2]
    constructor
    · simp only [readPaths_append, readPaths_foundPrints,
        readPaths_enumErrChunk, apply_ite readPaths]
      simp [readPaths]
    · intro n hn
      exfalso
      simp only [writePaths_append, writePaths_foundPrints,
        writePaths_enumErrChunk, apply_ite writePaths] at hn
      simp [writePaths] at hn
  | ok text =>
    rw [mainRun_ok_eq env fs yielded enumErr text k h1 h2]
    constructor
    · simp only [readPaths_append, readPaths_foundPrints,
        readPaths_enumErrChunk, apply_ite readPaths, readPaths_updates]
      simp [readPaths]
    · intro n hn
      simp only [writePaths_append, writePaths_foundPrints,
        writePaths_enumErrChunk, apply_ite writePaths, writePaths_updates] at hn
      simp [writePaths] at hn
      obtain ⟨c, hw⟩ := hn
      obtain ⟨t, ht, hwp⟩ := foldl_writes_extend (pySplit newlineSep text)
        initState
      have hw' : (n, c) ∈ t := by
        have hx : (n, c) ∈ (List.foldl step initState
            (pySplit newlineSep text)).writes := hw
        rw [ht] at hx
        exact hx
      obtain ⟨hne, hd⟩ := hwp (n, c) hw'
      cases hd with
      | inl h => exact ⟨hne, text, rfl, h⟩
      | inr h => simp [initState] at h

/-- Witness for C3 (amended): a run with credential and issue number set
reads exactly the two fixed paths; its response `hi` has no completed
blocks, so there is nothing to write. -/
theorem c3_read_write_frame_witness :
    readPaths (mainRun
      (fun kk => if kk = keyGemini then some ("secret".toList)
                 else if kk = keyIssueNumber then some ("1".toList) else none)
      (fun _ => none) [] none (Except.ok ("hi".toList))).1 =
      [fileIndexHtml, fileStyleCss] ∧
    ∀ n ∈ writePaths (mainRun
      (fun kk => if kk = keyGemini then some ("secret".toList)
                 else if kk = keyIssueNumber then some ("1".toList) else none)
      (fun _ => none) [] none (Except.ok ("hi".toList))).1,
      n ≠ [] ∧ ∃ text, (Except.ok ("hi".toList) : Except Line Line) =
        Except.ok text ∧ n ∈ markerNames (pySplit newlineSep text) :=
  c3_read_write_frame
    (fun kk => if kk = keyGemini then some ("secret".toList)
               else if kk = keyIssueNumber then some ("1".toList) else none)
    (fun _ => none) [] none (Except.ok ("hi".toList)) 1
    (by decide) (by decide)

/-- C9: for either of the two target files, if the file is absent at read
time the constructed prompt (the one actually sent in the `generate`
call) contains the sentinel `(File does not exist yet)` in place of its
content; and a subsequent well-formed response block naming that file
creates it on disk with exactly the block's content. -/
theorem c9_sentinel_and_create (env fs : Line → Option Line)
    (yielded : List ModelInfo) (enumErr : Option Line) (k : Int)
    (text : Line) (pre post content : List Line) (m o cl fname : Line)
    (h1 : truthyName (env keyGemini) = true)
    (h2 : pyInt (env keyIssueNumber) = some k)
    (hfile : fname = fileIndexHtml ∨ fname = fileStyleCss)
    (habsent : fs fname = none)
    (hsplit : pySplit newlineSep text = pre ++ m :: o :: (content ++ cl :: post))
    (hm : isMarkerLine m = true) (hname : extractName m = fname)
    (ho : isFenceLine o = true) (hcl : isFenceLine cl = true)
    (hc : ∀ l ∈ content, isMarkerLine l = false ∧ isFenceLine l = false)
    (hpre : ∀ l ∈ pre, isMarkerLine l = true → extractName l ≠ fname)
    (hpost : ∀ l ∈ post, isMarkerLine l = true → extractName l ≠ fname) :
    (Effect.generate (selectedModelOf yielded enumErr)
        (promptOf (env keyIssueBody) (contentOf fs fileIndexHtml)
          (contentOf fs fileStyleCss)) ∈
      (mainRun env fs yielded enumErr (Except.ok text)).1) ∧
    containsSub sentinelText
      (promptOf (env keyIssueBody) (contentOf fs fileIndexHtml)
        (contentOf fs fileStyleCss)) = true ∧
    (mainRun env fs yielded enumErr (Except.ok text)).2.2 fname =
      some (List.intercalate newlineSep content) := by
  have hne : fname ≠ [] := by
    rcases hfile with rfl | rfl <;> decide
  rw [mainRun_ok_eq env fs yielded enumErr text k h1 h2]
  refine ⟨?_, ?_, ?_⟩
  · simp
  · rcases hfile with rfl | rfl
    · rw [show contentOf fs fileIndexHtml = sentinelText from by
        simp [contentOf, habsent]]
      unfold promptOf
      have hcs := containsSub_append
        (show sentinelText ≠ [] by decide)
        (promptHead ++ pyShowOpt (env keyIssueBody) ++ promptMid1)
        (promptMid2 ++ contentOf fs fileStyleCss ++ promptTail)
      simpa [List.append_assoc] using hcs
    · rw [show contentOf fs fileStyleCss = sentinelText from by
        simp [contentOf, habsent]]
      unfold promptOf
      have hcs := containsSub_append
        (show sentinelText ≠ [] by decide)
        (promptHead ++ pyShowOpt (env keyIssueBody) ++ promptMid1 ++
          contentOf fs fileIndexHtml ++ promptMid2)
        promptTail
      simpa [List.append_assoc] using hcs
  · show applyWrites fs (applyResponse text) fname = _
    have h' : (applyResponse text).filter (fun w => w.1 == fname) =
        [(fname, List.intercalate newlineSep content)] := by
      unfold applyResponse
      rw [hsplit]
      exact scan_single_block pre post content hm hname hne ho hcl hc hpre hpost
    exact applyWrites_filter_single h' fs

/-- Witness for C9: with `index.html` absent, the prompt sent carries the
sentinel, and the response block `FILE: index.html` / fence / `new` /
fence creates `index.html` with content `new`. -/
theorem c9_sentinel_and_create_witness :
    (Effect.generate (selectedModelOf [] none)
        (promptOf ((fun kk => if kk = keyGemini then some ("s".toList)
            else if kk = keyIssueNumber then some ("7".toList) else none)
            keyIssueBody)
          (contentOf (fun _ => none) fileIndexHtml)
          (contentOf (fun _ => none) fileStyleCss)) ∈
      (mainRun (fun kk => if kk = keyGemini then some ("s".toList)
          else if kk = keyIssueNumber then some ("7".toList) else none)
        (fun _ => none) [] none
        (Except.ok ("FILE: index.html\n```html\nnew\n```".toList))).1) ∧
    containsSub sentinelText
      (promptOf ((fun kk => if kk = keyGemini then some ("s".toList)
          else if kk = keyIssueNumber then some ("7".toList) else none)
          keyIssueBody)
        (contentOf (fun _ => none) fileIndexHtml)
        (contentOf (fun _ => none) fileStyleCss)) = true ∧
    (mainRun (fun kk => if kk = keyGemini then some ("s".toList)
        else if kk = keyIssueNumber then some ("7".toList) else none)
      (fun _ => none) [] none
      (Except.ok ("FILE: index.html\n```html\nnew\n```".toList))).2.2
        fileIndexHtml =
      some (List.intercalate newlineSep ["new".toList]) :=
  c9_sentinel_and_create
    (fun kk => if kk = keyGemini then some ("s".toList)
        else if kk = keyIssueNumber then some ("7".toList) else none)
    (fun _ => none) [] none 7
    ("FILE: index.html\n```html\nnew\n```".toList) [] [] ["new".toList]
    ("FILE: index.html".toList) ("```html".toList) ("```".toList) fileIndexHtml
    (by decide) (by decide) (Or.inl rfl) rfl (by decide) (by decide)
    (by decide) (by decide) (by decide) (by decide) (by decide) (by decide)
